import Mathlib

/-
Verification of the multi-actor orchestration system (langchain-multiactor v1/v2).
Shallow embedding of the actor lifecycle (base.py), the orchestrator thread and
result bookkeeping (enhanced_orchestrator.py), the query planner
(tests/planner.py) and the graph-router supervisor
(tests/multi-actor-orchestration.py), with theorems settling the spec claims.
-/

set_option autoImplicit false

namespace Orch

/-! ## Python dict model

Python dicts preserve insertion order; assigning to an existing key overwrites
the value in place, assigning to a fresh key appends.  We model a dict as an
association list over `String` keys. -/

/-- Lookup in the association-list model of a Python dict (`d.get(k)` /
`d[k]`). -/
def dictGet {α : Type} : List (String × α) → String → Option α
  | [], _ => none
  | (k, v) :: rest, a => if k == a then some v else dictGet rest a

/-- Assignment `d[k] = v` in the association-list model of a Python dict:
overwrite in place when the key is present, append otherwise. -/
def dictInsert {α : Type} : List (String × α) → String → α → List (String × α)
  | [], k, v => [(k, v)]
  | (k0, v0) :: rest, k, v =>
    if k0 == k then (k0, v) :: rest else (k0, v0) :: dictInsert rest k v

theorem dictGet_dictInsert_self {α : Type} (d : List (String × α)) (k : String) (v : α) :
    dictGet (dictInsert d k v) k = some v := by
  induction d with
  | nil => simp [dictInsert, dictGet]
  | cons p rest ih =>
    by_cases h : p.1 == k
    · simp [dictInsert, dictGet, h]
    · simp only [dictInsert, dictGet, h]
      simpa [dictGet, h, Bool.not_eq_true] using ih

theorem dictGet_dictInsert_ne {α : Type} (d : List (String × α)) (k a : String) (v : α)
    (h : (k == a) = false) : dictGet (dictInsert d k v) a = dictGet d a := by
  induction d with
  | nil => simp [dictInsert, dictGet, h]
  | cons p rest ih =>
    by_cases hp : p.1 == k
    · have hpk : p.1 = k := eq_of_beq hp
      simp [dictInsert, dictGet, hp, hpk, h]
    · simp [dictInsert, dictGet, hp, ih]

/-! ## Actor lifecycle (`base.py`, `CodeInterpreterAgent`)

State of one agent: the configured source files, the uploaded-file mapping
`file_mapping : fileId -> (original filename, source path)`, and the lazily
created remote assistant identity `assistant_id`. -/

structure AgentState where
  files : List String
  file_mapping : List (String × String × String)
  assistant_id : Option String
deriving Repr, DecidableEq

/-- Model of `Path(file_path).name`: the last `/`-separated component. -/
def baseName (p : String) : String := (p.splitOn "/").getLastD p

/-- Model of `CodeInterpreterAgent._upload_file`: the backend returns the fresh
id `freshId`; the agent records `file_mapping[freshId] = (filename, path)`. -/
def uploadFile (st : AgentState) (freshId filePath : String) : AgentState :=
  { st with
    file_mapping := dictInsert st.file_mapping freshId (baseName filePath, filePath) }

/-- The upload loop at the top of `CodeInterpreterAgent.initialize`: uploads
every configured file in order, pairing it with the backend-generated fresh id. -/
def uploadAll (st : AgentState) : List (String × String) → AgentState
  | [] => st
  | (p, fid) :: rest => uploadAll (uploadFile st fid p) rest

/-- Model of `CodeInterpreterAgent.initialize` (v1 lines 99-151, v2 lines
63-97): uploads every configured file (each upload paired with a fresh backend
file id from `freshFileIds`), then unconditionally creates a remote assistant
whose fresh id overwrites `assistant_id`.  There is no guard on
`assistant_id` in the source. -/
def initializeAgent (st : AgentState) (freshFileIds : List String)
    (freshAssistantId : String) : AgentState :=
  let st1 := uploadAll st (st.files.zip freshFileIds)
  { st1 with assistant_id := some freshAssistantId }

/-- The lazy-initialization guard at the top of `run_analysis`:
`if not self.assistant_id: self.initialize()`. -/
def ensureInitialized (st : AgentState) (freshFileIds : List String)
    (freshAssistantId : String) : AgentState :=
  match st.assistant_id with
  | some _ => st
  | none => initializeAgent st freshFileIds freshAssistantId

/-- The loop body of `CodeInterpreterAgent.cleanup`: for each mapped file id a
`files.delete` call is attempted; the `try/except` swallows a failing delete
and the loop continues with the next id.  Returns the list of file ids for
which a delete call was attempted, in order. -/
def cleanupLoop (deleteFile : String → Except String Unit) :
    List (String × String × String) → List String
  | [] => []
  | (fid, _) :: rest =>
    match deleteFile fid with
    | .ok _ => fid :: cleanupLoop deleteFile rest
    | .error _ => fid :: cleanupLoop deleteFile rest

/-- Model of `CodeInterpreterAgent.cleanup` (v1 lines 252-264, v2 lines
180-189): attempt a delete per mapped file id, then
`self.file_mapping.clear()` unconditionally. -/
def cleanupAgent (deleteFile : String → Except String Unit) (st : AgentState) :
    List String × AgentState :=
  (cleanupLoop deleteFile st.file_mapping, { st with file_mapping := [] })

theorem dictInsert_append_of_fresh {α : Type} (d : List (String × α)) (k : String) (v : α)
    (h : ∀ p ∈ d, (p.1 == k) = false) : dictInsert d k v = d ++ [(k, v)] := by
  induction d with
  | nil => rfl
  | cons p rest ih =>
    have hp := h p (List.mem_cons_self p rest)
    simp only [dictInsert, hp, if_neg, Bool.false_eq_true, not_false_iff, List.cons_append,
      List.cons.injEq, true_and]
    exact ih (fun q hq => h q (List.mem_cons_of_mem p hq))

theorem uploadAll_files (pairs : List (String × String)) (st : AgentState) :
    (uploadAll st pairs).files = st.files := by
  induction pairs generalizing st with
  | nil => rfl
  | cons pr rest ih => exact ih (uploadFile st pr.2 pr.1)

theorem uploadAll_assistant (pairs : List (String × String)) (st : AgentState) :
    (uploadAll st pairs).assistant_id = st.assistant_id := by
  induction pairs generalizing st with
  | nil => rfl
  | cons pr rest ih => exact ih (uploadFile st pr.2 pr.1)

theorem uploadAll_mapping (pairs : List (String × String)) (st : AgentState)
    (hnd : (pairs.map Prod.snd).Nodup)
    (hfresh : ∀ fid ∈ pairs.map Prod.snd, ∀ e ∈ st.file_mapping, (e.1 == fid) = false) :
    (uploadAll st pairs).file_mapping =
      st.file_mapping ++ pairs.map (fun pr => (pr.2, baseName pr.1, pr.1)) := by
  induction pairs generalizing st with
  | nil => simp [uploadAll]
  | cons pr rest ih =>
    obtain ⟨p, fid⟩ := pr
    have hfid : ∀ e ∈ st.file_mapping, (e.1 == fid) = false := by
      intro e he
      exact hfresh fid (by simp) e he
    have hmap1 : (uploadFile st fid p).file_mapping =
        st.file_mapping ++ [(fid, baseName p, p)] := by
      simp only [uploadFile]
      exact dictInsert_append_of_fresh _ _ _ hfid
    have hnd2 : (fid :: rest.map Prod.snd).Nodup := by
      rw [List.map_cons] at hnd
      exact hnd
    have hnd1 : (rest.map Prod.snd).Nodup := (List.nodup_cons.mp hnd2).2
    have hnotmem : fid ∉ rest.map Prod.snd := (List.nodup_cons.mp hnd2).1
    have hfresh1 : ∀ g ∈ rest.map Prod.snd,
        ∀ e ∈ (uploadFile st fid p).file_mapping, (e.1 == g) = false := by
      intro g hg e he
      rw [hmap1] at he
      rcases List.mem_append.mp he with h1 | h1
      · exact hfresh g (by simp [hg]) e h1
      · have : e = (fid, baseName p, p) := by simpa using h1
        subst this
        have hne : fid ≠ g := fun h => hnotmem (h ▸ hg)
        simpa using hne
    have := ih (uploadFile st fid p) hnd1 hfresh1
    simp only [uploadAll, this, hmap1]
    simp

theorem cleanupLoop_eq_keys (deleteFile : String → Except String Unit)
    (l : List (String × String × String)) :
    cleanupLoop deleteFile l = l.map (fun e => e.1) := by
  induction l with
  | nil => rfl
  | cons e rest ih =>
    obtain ⟨fid, info⟩ := e
    simp only [cleanupLoop, List.map_cons]
    cases deleteFile fid <;> simp [ih]

/-- C3: for every actor whose file mapping holds N uploaded file ids,
`cleanup()` attempts exactly one backend delete call per mapped file id (N in
total, in mapping order), an individual delete failure (any behaviour of
`deleteFile`) never prevents the remaining delete attempts, and the file
mapping is unconditionally empty afterwards. -/
theorem cleanup_attempts_every_file_and_clears_mapping
    (deleteFile : String → Except String Unit) (st : AgentState) :
    (cleanupAgent deleteFile st).1 = st.file_mapping.map (fun e => e.1) ∧
    (cleanupAgent deleteFile st).1.length = st.file_mapping.length ∧
    (cleanupAgent deleteFile st).2.file_mapping = [] := by
  refine ⟨cleanupLoop_eq_keys deleteFile st.file_mapping, ?_, rfl⟩
  rw [show (cleanupAgent deleteFile st).1 = cleanupLoop deleteFile st.file_mapping from rfl,
    cleanupLoop_eq_keys]
  exact List.length_map _ _

/-- An agent that has already gone through initialization: one uploaded file
recorded and a live assistant identity. -/
def agentReady : AgentState :=
  { files := ["data/customers.csv"],
    file_mapping := [("file_1", "customers.csv", "data/customers.csv")],
    assistant_id := some "asst_1" }

/-- C7 counterexample: calling `initialize()` on an already-initialized actor
is not a no-op.  On `agentReady` it performs another upload (the file mapping
grows from 1 to 2 entries) and creates a second remote assistant whose id
overwrites the stored one. -/
theorem initialize_again_not_noop :
    (initializeAgent agentReady ["file_2"] "asst_2").assistant_id ≠ agentReady.assistant_id ∧
    (initializeAgent agentReady ["file_2"] "asst_2").file_mapping.length =
      agentReady.file_mapping.length + 1 ∧
    initializeAgent agentReady ["file_2"] "asst_2" ≠ agentReady := by
  refine ⟨by decide, by decide, by decide⟩

/-- C7 (amended): `initialize()` carries no idempotence guard.  Calling it on
any actor re-uploads every configured file (appending one fresh mapping entry
per file) and creates a fresh remote assistant whose id replaces
`assistant_id`; the idempotence check lives only in `run_analysis`, which
skips `initialize()` exactly when `assistant_id` is already set. -/
theorem initialize_reuploads_and_runAnalysis_guards (st : AgentState)
    (freshFileIds : List String) (freshAssistantId : String)
    (hnd : ((st.files.zip freshFileIds).map Prod.snd).Nodup)
    (hfresh : ∀ fid ∈ (st.files.zip freshFileIds).map Prod.snd,
      ∀ e ∈ st.file_mapping, (e.1 == fid) = false) :
    (initializeAgent st freshFileIds freshAssistantId).assistant_id = some freshAssistantId ∧
    (initializeAgent st freshFileIds freshAssistantId).file_mapping =
      st.file_mapping ++ (st.files.zip freshFileIds).map (fun pr => (pr.2, baseName pr.1, pr.1)) ∧
    (∀ a, st.assistant_id = some a →
      ensureInitialized st freshFileIds freshAssistantId = st) := by
  refine ⟨rfl, ?_, ?_⟩
  · show (uploadAll st (st.files.zip freshFileIds)).file_mapping = _
    exact uploadAll_mapping _ st hnd hfresh
  · intro a ha
    simp [ensureInitialized, ha]

/-- Witness for the amended C7 theorem at a concrete already-initialized
agent. -/
theorem initialize_reuploads_and_runAnalysis_guards_witness :
    ((agentReady.files.zip ["file_2"]).map Prod.snd).Nodup ∧
    ((initializeAgent agentReady ["file_2"] "asst_2").assistant_id = some "asst_2" ∧
      (initializeAgent agentReady ["file_2"] "asst_2").file_mapping =
        agentReady.file_mapping ++
          (agentReady.files.zip ["file_2"]).map (fun pr => (pr.2, baseName pr.1, pr.1)) ∧
      (∀ a, agentReady.assistant_id = some a →
        ensureInitialized agentReady ["file_2"] "asst_2" = agentReady)) :=
  ⟨by decide,
    initialize_reuploads_and_runAnalysis_guards agentReady ["file_2"] "asst_2"
      (by decide) (by decide)⟩

/-! ## Run polling (`run_analysis` wait loops)

The v2 loop (`langchain-multiactor-v2/base.py` lines 149-158) retrieves the
run status repeatedly: `completed` breaks out, a status in
`failed|expired|cancelled` raises `Exception("Run failed with status: " + s)`
directly, and any other status polls again.  The v1 loop
(`langchain-multiactor-v1/base.py` lines 194-220) wraps the same checks in a
`try/except` retry handler: the raise on a terminal failure status is caught,
the retry counter is incremented, and once it reaches `max_retries` the last
error is re-raised wrapped as `Exception("Max retries reached: " + str(e))`.
Both are modelled as functions of the finite sequence of polled statuses;
`none` means the loop was still polling when the observed sequence ended. -/

def isFailureStatus (s : String) : Bool :=
  s == "failed" || s == "expired" || s == "cancelled"

def isTerminalStatus (s : String) : Bool :=
  s == "completed" || isFailureStatus s

/-- The v2 wait loop over the polled status sequence. -/
def pollRunV2 : List String → Option (Except String Unit)
  | [] => none
  | s :: rest =>
    if s == "completed" then some (Except.ok ())
    else if isFailureStatus s then some (Except.error ("Run failed with status: " ++ s))
    else pollRunV2 rest

/-- The v1 wait loop with its retry handler, over the polled status sequence.
The raise on a failure status is caught by the surrounding `except` block,
which increments `retries` and re-raises wrapped once `retries` reaches
`maxRetries`; the dead `retries >= max_retries` branch of the source is kept. -/
def pollRunV1 (maxRetries : Nat) : List String → Nat → Option (Except String Unit)
  | [], _ => none
  | s :: rest, retries =>
    if s == "completed" then some (Except.ok ())
    else if isFailureStatus s then
      if retries + 1 == maxRetries then
        some (Except.error ("Max retries reached: Run failed with status: " ++ s))
      else pollRunV1 maxRetries rest (retries + 1)
    else if maxRetries ≤ retries then
      if retries + 1 == maxRetries then
        some (Except.error "Max retries reached: Max retries reached")
      else pollRunV1 maxRetries rest (retries + 1)
    else pollRunV1 maxRetries rest retries

/-- One content part of a backend message: the duck-typed
`hasattr(content, "text")` / `hasattr(content, "image_file")` union. -/
inductive ContentPart
  | text (value : String)
  | imageFile
  | other
deriving Repr, DecidableEq

structure ThreadMessage where
  role : String
  content : List ContentPart
deriving Repr, DecidableEq

/-- The v2 content scan: the first part with a `text` attribute, if any. -/
def firstTextValue : List ContentPart → Option String
  | [] => none
  | ContentPart.text v :: _ => some v
  | _ :: rest => firstTextValue rest

/-- Python `content_value or "No text content found"` (`None` and the empty
string are both falsy). -/
def orNoText : Option String → String
  | some s => if s == "" then "No text content found" else s
  | none => "No text content found"

structure RunSuccess where
  content : String
  thread_id : String
  run_id : String
deriving Repr, DecidableEq

inductive RunOutcome
  | success (r : RunSuccess)
  | noResponse
  | failure (message : String)
deriving Repr, DecidableEq

/-- The v2 message scan after a completed run: the first assistant-authored
message yields the result dict, otherwise the "No assistant response found"
sentinel. -/
def extractResponseV2 (msgs : List ThreadMessage) (threadId runId : String) : RunOutcome :=
  match msgs.find? (fun m => m.role == "assistant") with
  | some m => RunOutcome.success ⟨orNoText (firstTextValue m.content), threadId, runId⟩
  | none => RunOutcome.noResponse

/-- v2 `run_analysis` from the start of the wait loop onward, as a function of
the polled status sequence and the thread messages. -/
def runAnalysisV2 (statuses : List String) (msgs : List ThreadMessage)
    (threadId runId : String) : Option RunOutcome :=
  match pollRunV2 statuses with
  | none => none
  | some (Except.error msg) => some (RunOutcome.failure msg)
  | some (Except.ok _) => some (extractResponseV2 msgs threadId runId)

theorem failureStatus_cases (t : String) (h : isFailureStatus t = true) :
    t = "failed" ∨ t = "expired" ∨ t = "cancelled" := by
  have h2 : (t = "failed" ∨ t = "expired") ∨ t = "cancelled" := by
    simpa [isFailureStatus] using h
  tauto

theorem pollRunV2_cons_nonterminal (s : String) (rest : List String)
    (h : isTerminalStatus s = false) : pollRunV2 (s :: rest) = pollRunV2 rest := by
  simp only [isTerminalStatus, Bool.or_eq_false_iff] at h
  simp [pollRunV2, h.1, h.2]

theorem runAnalysisV2_cons_nonterminal (s : String) (rest : List String)
    (msgs : List ThreadMessage) (threadId runId : String)
    (h : isTerminalStatus s = false) :
    runAnalysisV2 (s :: rest) msgs threadId runId = runAnalysisV2 rest msgs threadId runId := by
  unfold runAnalysisV2
  rw [pollRunV2_cons_nonterminal s rest h]

theorem pollRunV1_cons_nonterminal (s : String) (rest : List String)
    (h : isTerminalStatus s = false) : pollRunV1 3 (s :: rest) 0 = pollRunV1 3 rest 0 := by
  simp only [isTerminalStatus, Bool.or_eq_false_iff] at h
  simp [pollRunV1, h.1, h.2]

/-- C1: for every run whose polled status sequence reaches a terminal state
after non-terminal polls `pre`: in v2, terminal `completed` makes
`run_analysis` return the extracted assistant response, while a terminal
`failed`, `expired` or `cancelled` status `t` makes it raise
`Exception("Run failed with status: " + t)` — a failure outcome carrying the
terminal status and no content.  In v1 the same failure raise is routed
through the retry handler, so a run stuck on terminal status `t` ends (at the
default `max_retries = 3`) with the raised error
`"Max retries reached: Run failed with status: " + t`, again carrying the
terminal status and returning no content; `completed` exits the loop normally. -/
theorem run_terminal_status_routing (pre : List String) (t : String)
    (msgs : List ThreadMessage) (threadId runId : String)
    (hpre : ∀ s ∈ pre, isTerminalStatus s = false) :
    (t = "completed" →
      runAnalysisV2 (pre ++ [t]) msgs threadId runId =
        some (extractResponseV2 msgs threadId runId)) ∧
    (isFailureStatus t = true →
      runAnalysisV2 (pre ++ [t]) msgs threadId runId =
        some (RunOutcome.failure ("Run failed with status: " ++ t))) ∧
    pollRunV1 3 (pre ++ ["completed"]) 0 = some (Except.ok ()) ∧
    (isFailureStatus t = true →
      pollRunV1 3 (pre ++ [t, t, t]) 0 =
        some (Except.error ("Max retries reached: Run failed with status: " ++ t))) := by
  induction pre with
  | nil =>
    refine ⟨?_, ?_, rfl, ?_⟩
    · intro ht; subst ht; rfl
    · intro hf
      rcases failureStatus_cases t hf with h | h | h <;> subst h <;> rfl
    · intro hf
      rcases failureStatus_cases t hf with h | h | h <;> subst h <;> rfl
  | cons s rest ih =>
    have hs : isTerminalStatus s = false := hpre s (List.mem_cons_self s rest)
    have hrest : ∀ x ∈ rest, isTerminalStatus x = false :=
      fun x hx => hpre x (List.mem_cons_of_mem s hx)
    obtain ⟨ih1, ih2, ih3, ih4⟩ := ih hrest
    refine ⟨?_, ?_, ?_, ?_⟩
    · intro ht
      rw [List.cons_append, runAnalysisV2_cons_nonterminal s _ msgs threadId runId hs]
      exact ih1 ht
    · intro hf
      rw [List.cons_append, runAnalysisV2_cons_nonterminal s _ msgs threadId runId hs]
      exact ih2 hf
    · rw [List.cons_append, pollRunV1_cons_nonterminal s _ hs]
      exact ih3
    · intro hf
      rw [List.cons_append, pollRunV1_cons_nonterminal s _ hs]
      exact ih4 hf

/-- Concrete thread messages used by the C1 witness. -/
def demoMsgs : List ThreadMessage :=
  [{ role := "assistant", content := [ContentPart.text "result text"] }]

/-- Witness for C1 at the status sequence `queued, in_progress` followed by a
terminal `failed` (resp. `completed`). -/
theorem run_terminal_status_routing_witness :
    (∀ s ∈ (["queued", "in_progress"] : List String), isTerminalStatus s = false) ∧
    ((("failed" : String) = "completed" →
      runAnalysisV2 (["queued", "in_progress"] ++ ["failed"]) demoMsgs "thread_1" "run_1" =
        some (extractResponseV2 demoMsgs "thread_1" "run_1")) ∧
    (isFailureStatus "failed" = true →
      runAnalysisV2 (["queued", "in_progress"] ++ ["failed"]) demoMsgs "thread_1" "run_1" =
        some (RunOutcome.failure ("Run failed with status: " ++ "failed"))) ∧
    pollRunV1 3 (["queued", "in_progress"] ++ ["completed"]) 0 = some (Except.ok ()) ∧
    (isFailureStatus "failed" = true →
      pollRunV1 3 (["queued", "in_progress"] ++ ["failed", "failed", "failed"]) 0 =
        some (Except.error ("Max retries reached: Run failed with status: " ++ "failed")))) :=
  ⟨by decide,
    run_terminal_status_routing ["queued", "in_progress"] "failed" demoMsgs "thread_1" "run_1"
      (by decide)⟩

/-! ## Orchestrator thread continuity (`enhanced_orchestrator.py`, `_execute_actor`)

`_execute_actor` (v2 lines 147-169, v1 lines 107-117) reads
`thread_id = self.context.threads.get(actor_name)`, calls
`agent.run_analysis(prompt, thread_id=thread_id)`, and stores
`result["thread_id"]` under the actor name only when no thread id was stored
before (`if not thread_id and result.get("thread_id")`).  In `run_analysis`
(base.py) a falsy `thread_id` triggers `threads.create()`, and the response
echoes the thread id that was used. -/

/-- Thread selection inside `run_analysis`: reuse a truthy `thread_id`,
otherwise create a fresh thread.  Returns the thread id used (and echoed in
the response) and whether a new thread was created. -/
def runAnalysisThread (threadId : Option String) (freshThread : String) : String × Bool :=
  match threadId with
  | none => (freshThread, true)
  | some t => if t == "" then (freshThread, true) else (t, false)

structure ExecThreadOutcome where
  threads : List (String × String)
  usedThread : String
  createdThread : Bool
  recorded : Bool
deriving Repr, DecidableEq

/-- The thread bookkeeping of one `_execute_actor` call. -/
def executeActorThread (threads : List (String × String)) (actor fresh : String) :
    ExecThreadOutcome :=
  let threadId := dictGet threads actor
  let used := (runAnalysisThread threadId fresh).1
  let created := (runAnalysisThread threadId fresh).2
  let tidFalsy : Bool := match threadId with | none => true | some t => t == ""
  if tidFalsy && used != "" then
    { threads := dictInsert threads actor used, usedThread := used,
      createdThread := created, recorded := true }
  else
    { threads := threads, usedThread := used, createdThread := created, recorded := false }

/-- A sequence of `_execute_actor` calls for the same actor, each supplied
with the fresh thread id the backend would mint if asked.  Returns the final
thread map and, per call, the thread id passed to the run plus the
created/recorded flags. -/
def runActorSteps (threads : List (String × String)) (actor : String) :
    List String → List (String × String) × List (String × Bool × Bool)
  | [] => (threads, [])
  | fresh :: rest =>
    let o := executeActorThread threads actor fresh
    let r := runActorSteps o.threads actor rest
    (r.1, (o.usedThread, o.createdThread, o.recorded) :: r.2)

theorem executeActorThread_existing (threads : List (String × String)) (actor fresh t : String)
    (h : dictGet threads actor = some t) (ht : (t == "") = false) :
    executeActorThread threads actor fresh =
      { threads := threads, usedThread := t, createdThread := false, recorded := false } := by
  simp [executeActorThread, runAnalysisThread, h, ht]

theorem executeActorThread_fresh (threads : List (String × String)) (actor fresh : String)
    (h : dictGet threads actor = none) (hf : (fresh == "") = false) :
    executeActorThread threads actor fresh =
      { threads := dictInsert threads actor fresh, usedThread := fresh,
        createdThread := true, recorded := true } := by
  simp [executeActorThread, runAnalysisThread, h, bne, hf]

theorem runActorSteps_established (threads : List (String × String)) (actor t : String)
    (freshes : List String) (h : dictGet threads actor = some t) (ht : (t == "") = false) :
    runActorSteps threads actor freshes =
      (threads, freshes.map (fun _ => (t, false, false))) := by
  induction freshes with
  | nil => rfl
  | cons fresh rest ih =>
    simp [runActorSteps, executeActorThread_existing threads actor fresh t h ht, ih]

/-- C2: starting from a context with no thread recorded for the actor, a
sequence of `_execute_actor` calls for that actor records a thread id exactly
once — the id minted by the first call — and every later call passes that same
stored id to `run_analysis`, creating no further thread and recording nothing
again; the final context maps the actor to the first call's thread id. -/
theorem thread_recorded_once_then_reused (threads0 : List (String × String))
    (actor fresh1 : String) (laterFresh : List String)
    (h0 : dictGet threads0 actor = none) (h1 : fresh1 ≠ "") :
    (runActorSteps threads0 actor (fresh1 :: laterFresh)).1 =
      dictInsert threads0 actor fresh1 ∧
    dictGet (runActorSteps threads0 actor (fresh1 :: laterFresh)).1 actor = some fresh1 ∧
    (runActorSteps threads0 actor (fresh1 :: laterFresh)).2 =
      (fresh1, true, true) :: laterFresh.map (fun _ => (fresh1, false, false)) := by
  have hf : (fresh1 == "") = false := beq_eq_false_iff_ne.mpr h1
  have hget : dictGet (dictInsert threads0 actor fresh1) actor = some fresh1 :=
    dictGet_dictInsert_self threads0 actor fresh1
  have hrest := runActorSteps_established (dictInsert threads0 actor fresh1) actor fresh1
    laterFresh hget hf
  refine ⟨?_, ?_, ?_⟩ <;>
    simp [runActorSteps, executeActorThread_fresh threads0 actor fresh1 h0 hf, hrest, hget]

/-- Witness for C2: three executions for the same actor starting from an empty
thread map. -/
theorem thread_recorded_once_then_reused_witness :
    dictGet ([] : List (String × String)) "customer_actor" = none ∧
    ("thread_1" : String) ≠ "" ∧
    ((runActorSteps [] "customer_actor" ("thread_1" :: ["thread_2", "thread_3"])).1 =
      dictInsert [] "customer_actor" "thread_1" ∧
    dictGet (runActorSteps [] "customer_actor"
      ("thread_1" :: ["thread_2", "thread_3"])).1 "customer_actor" = some "thread_1" ∧
    (runActorSteps [] "customer_actor" ("thread_1" :: ["thread_2", "thread_3"])).2 =
      ("thread_1", true, true) ::
        (["thread_2", "thread_3"] : List String).map (fun _ => ("thread_1", false, false))) :=
  ⟨by decide, by decide,
    thread_recorded_once_then_reused [] "customer_actor" "thread_1" ["thread_2", "thread_3"]
      (by decide) (by decide)⟩

/-! ## Orchestrator result bookkeeping (`run_analysis` loop,
`enhanced_orchestrator.py` v2 lines 186-226, v1 lines 119-138, and
`OrchestratorContext.add_result`)

The execution loop does `results[actor_name] = result["content"]` per step (a
plain dict assignment, so a repeated actor overwrites its earlier entry),
collects `actors_used = [actor for actor, _ in plan]` and
`steps_executed = len(plan)`, and appends every step's result to
`context.actor_results[actor_name]`. -/

structure StepExec where
  actor : String
  content : String
deriving Repr, DecidableEq

/-- `OrchestratorContext.add_result`: create the empty per-actor list when the
actor is new, then append the result. -/
def addResult (ar : List (String × List String)) (actor content : String) :
    List (String × List String) :=
  match dictGet ar actor with
  | none => dictInsert ar actor [content]
  | some l => dictInsert ar actor (l ++ [content])

/-- The `results[actor_name] = result["content"]` accumulation over the
executed steps. -/
def runResults (execs : List StepExec) : List (String × String) :=
  execs.foldl (fun d e => dictInsert d e.actor e.content) []

/-- The `context.add_result` accumulation over the executed steps. -/
def contextResults (execs : List StepExec) : List (String × List String) :=
  execs.foldl (fun d e => addResult d e.actor e.content) []

structure AnalysisResponse where
  results : List (String × String)
  actors_used : List String
  steps_executed : Nat
deriving Repr, DecidableEq

/-- The response dict assembled by `run_analysis` from the executed steps. -/
def runAnalysisLoop (execs : List StepExec) : AnalysisResponse :=
  { results := runResults execs,
    actors_used := execs.map (fun e => e.actor),
    steps_executed := execs.length }

/-- Content of the last executed step for a given actor, if any. -/
def lastFor (a : String) : List StepExec → Option String
  | [] => none
  | e :: rest =>
    match lastFor a rest with
    | some v => some v
    | none => if e.actor == a then some e.content else none

/-- Contents of all executed steps for a given actor, in execution order. -/
def allFor (a : String) : List StepExec → List String
  | [] => []
  | e :: rest => if e.actor == a then e.content :: allFor a rest else allFor a rest

theorem dictGet_addResult_ne (ar : List (String × List String)) (k a c : String)
    (h : (k == a) = false) : dictGet (addResult ar k c) a = dictGet ar a := by
  unfold addResult
  cases dictGet ar k <;> simp [dictGet_dictInsert_ne _ _ _ _ h]

theorem dictGet_addResult_self (ar : List (String × List String)) (a c : String) :
    dictGet (addResult ar a c) a = some ((dictGet ar a).getD [] ++ [c]) := by
  unfold addResult
  cases h : dictGet ar a <;> simp [h, dictGet_dictInsert_self]

theorem runResults_foldl_lookup (execs : List StepExec) (d : List (String × String))
    (a : String) :
    dictGet (execs.foldl (fun d e => dictInsert d e.actor e.content) d) a =
      match lastFor a execs with
      | some v => some v
      | none => dictGet d a := by
  induction execs generalizing d with
  | nil => simp [lastFor]
  | cons e rest ih =>
    rw [List.foldl_cons, ih]
    cases hl : lastFor a rest with
    | some v => simp [lastFor, hl]
    | none =>
      by_cases he : (e.actor == a) = true
      · have hea : e.actor = a := eq_of_beq he
        subst hea
        simp [lastFor, hl, he, dictGet_dictInsert_self]
      · have he2 : (e.actor == a) = false := by simpa using he
        simp [lastFor, hl, he2, dictGet_dictInsert_ne d e.actor a e.content he2]

theorem contextResults_foldl_lookup (execs : List StepExec)
    (d : List (String × List String)) (a : String) :
    dictGet (execs.foldl (fun d e => addResult d e.actor e.content) d) a =
      match dictGet d a with
      | some l => some (l ++ allFor a execs)
      | none => if allFor a execs = [] then none else some (allFor a execs) := by
  induction execs generalizing d with
  | nil => cases h : dictGet d a <;> simp [allFor, h]
  | cons e rest ih =>
    rw [List.foldl_cons, ih]
    by_cases he : (e.actor == a) = true
    · have hea : e.actor = a := eq_of_beq he
      subst hea
      cases hd : dictGet d e.actor <;>
        simp [dictGet_addResult_self, hd, allFor, he]
    · have he2 : (e.actor == a) = false := by simpa using he
      simp [dictGet_addResult_ne d e.actor a e.content he2, allFor, he2]

/-- C10: in the response assembled by the orchestrator loop, a repeated actor
keeps only the content of its last executed step (`results` is a dict keyed by
actor, so each step's write overwrites the previous one), while `actors_used`
keeps one entry per step in execution order and `steps_executed` counts every
step; the full per-step sequence for the actor survives in the context's
`actor_results`. -/
theorem results_keep_last_write_per_actor (execs : List StepExec) (a : String) :
    dictGet (runAnalysisLoop execs).results a = lastFor a execs ∧
    (runAnalysisLoop execs).actors_used = execs.map (fun e => e.actor) ∧
    (runAnalysisLoop execs).actors_used.length = execs.length ∧
    (runAnalysisLoop execs).steps_executed = execs.length ∧
    dictGet (contextResults execs) a =
      (if allFor a execs = [] then none else some (allFor a execs)) := by
  refine ⟨?_, rfl, by simp [runAnalysisLoop], rfl, ?_⟩
  · have h := runResults_foldl_lookup execs [] a
    rw [show (runAnalysisLoop execs).results = runResults execs from rfl, runResults, h]
    cases lastFor a execs <;> simp [dictGet]
  · have h := contextResults_foldl_lookup execs [] a
    rw [contextResults, h]
    simp [dictGet]

/-! ## Query planner (`tests/planner.py`, `QueryPlanner`)

`metadata_models.py` is not in the source tree, so its data definitions are
modelled from the spec; the planning logic below is translated from
`tests/planner.py`. -/

/-- Modelled from the spec: `DataType` is a closed enumeration defined by the
deployment (spec section 3 gives CUSTOMER and ORGANIZATION as examples);
`metadata_models.py` is missing from the source tree. -/
inductive DataType
  | CUSTOMER
  | ORGANIZATION
  | SALES
deriving Repr, DecidableEq

/-- Modelled from the spec: `AnalysisType` is a closed enumeration defined by
the deployment (spec section 3 gives GEOGRAPHIC and STATISTICAL as examples);
`metadata_models.py` is missing from the source tree. -/
inductive AnalysisType
  | GEOGRAPHIC
  | STATISTICAL
  | TEMPORAL
deriving Repr, DecidableEq

/-- The Python enum member name (`dt.name`). -/
def DataType.name : DataType → String
  | .CUSTOMER => "CUSTOMER"
  | .ORGANIZATION => "ORGANIZATION"
  | .SALES => "SALES"

/-- The Python enum member name (`at.name`). -/
def AnalysisType.name : AnalysisType → String
  | .GEOGRAPHIC => "GEOGRAPHIC"
  | .STATISTICAL => "STATISTICAL"
  | .TEMPORAL => "TEMPORAL"

/-- Modelled from the spec: `ActorCapabilities` holds the supported data types
and analyses of one actor (spec section 3); `metadata_models.py` is missing
from the source tree. -/
structure ActorCapabilities where
  supported_data_types : List DataType
  supported_analyses : List AnalysisType
deriving Repr, DecidableEq

/-- Modelled from the spec and the constructor calls in `tests/planner.py`:
one step of an execution plan; `depends_on` defaults to the empty list. -/
structure ExecutionStep where
  actor_name : String
  action : String
  required_data : List DataType
  expected_output : String
  depends_on : List String := []
deriving Repr, DecidableEq

/-- The planner's actor registry: `actor_capabilities` is a Python dict, so
iteration order is registration order (re-registration overwrites the value in
place).  We model it as the ordered list of registered (name, capabilities)
pairs. -/
abbrev ActorRegistry := List (String × ActorCapabilities)

/-- Model of `QueryPlanner._find_best_actor_for_data`: the first registered
actor whose `supported_data_types` contains the data type; `ValueError` if
none does. -/
def findBestActorForData (caps : ActorRegistry) (dt : DataType) : Except String String :=
  match caps with
  | [] => Except.error ("No actor found for data type: " ++ dt.name)
  | (nm, c) :: rest =>
    if dt ∈ c.supported_data_types then Except.ok nm
    else findBestActorForData rest dt

/-- Model of `QueryPlanner._find_best_actor_for_analysis`. -/
def findBestActorForAnalysis (caps : ActorRegistry) (an : AnalysisType) : Except String String :=
  match caps with
  | [] => Except.error ("No actor found for analysis: " ++ an.name)
  | (nm, c) :: rest =>
    if an ∈ c.supported_analyses then Except.ok nm
    else findBestActorForAnalysis rest an

/-- `handled_data.add(dt)`: set insertion, modelled as an ordered list without
duplicates. -/
def setAdd (handled : List DataType) (dt : DataType) : List DataType :=
  if dt ∈ handled then handled else handled ++ [dt]

/-- The `handled_data` set after the data loop of `_create_execution_steps`. -/
def handledData (requiredData : List DataType) : List DataType :=
  requiredData.foldl setAdd []

/-- A data-retrieval step as built in the first loop of
`_create_execution_steps`. -/
def mkDataStep (actor : String) (dt : DataType) : ExecutionStep :=
  { actor_name := actor,
    action := "retrieve_" ++ dt.name.toLower ++ "_data",
    required_data := [dt],
    expected_output := dt.name ++ " data summary" }

/-- The filter condition of the dependency computation:
`any(dt in s.required_data for dt in handled_data)`. -/
def condOK (handled : List DataType) (s : ExecutionStep) : Bool :=
  handled.any (fun dt => decide (dt ∈ s.required_data))

/-- The dependency computation for an analysis step:
`[s.actor_name for s in steps if any(dt in s.required_data for dt in handled_data)]`. -/
def analysisDeps (handled : List DataType) (steps : List ExecutionStep) : List String :=
  (steps.filter (condOK handled)).map (fun s => s.actor_name)

/-- An analysis step as built in the second loop of `_create_execution_steps`. -/
def mkAnalysisStep (actor : String) (an : AnalysisType) (handled : List DataType)
    (deps : List String) : ExecutionStep :=
  { actor_name := actor,
    action := "perform_" ++ an.name.toLower ++ "_analysis",
    required_data := handled,
    expected_output := an.name ++ " analysis results",
    depends_on := deps }

/-- The first loop of `_create_execution_steps`: one step per required data
type, in order. -/
def planDataSteps (caps : ActorRegistry) : List DataType → Except String (List ExecutionStep)
  | [] => Except.ok []
  | dt :: rest =>
    match findBestActorForData caps dt with
    | Except.error e => Except.error e
    | Except.ok actor =>
      match planDataSteps caps rest with
      | Except.error e => Except.error e
      | Except.ok more => Except.ok (mkDataStep actor dt :: more)

/-- The second loop of `_create_execution_steps`: one step per required
analysis type appended to the accumulated step list, each carrying the
dependency list computed from the steps accumulated so far. -/
def planAnalysisSteps (caps : ActorRegistry) (handled : List DataType) :
    List AnalysisType → List ExecutionStep → Except String (List ExecutionStep)
  | [], steps => Except.ok steps
  | an :: rest, steps =>
    match findBestActorForAnalysis caps an with
    | Except.error e => Except.error e
    | Except.ok actor =>
      planAnalysisSteps caps handled rest
        (steps ++ [mkAnalysisStep actor an handled (analysisDeps handled steps)])

/-- Model of `QueryPlanner._create_execution_steps`: data steps first (building
`handled_data`), then analysis steps; any `ValueError` from actor lookup aborts
the whole computation, so no step list is produced on failure. -/
def createExecutionSteps (caps : ActorRegistry) (requiredData : List DataType)
    (requiredAnalyses : List AnalysisType) : Except String (List ExecutionStep) :=
  match planDataSteps caps requiredData with
  | Except.error e => Except.error e
  | Except.ok ds => planAnalysisSteps caps (handledData requiredData) requiredAnalyses ds

/-- The actor `a` is the first registered actor (registration order) whose
capability set contains the data type `dt`. -/
def FirstSupportingData (caps : ActorRegistry) (dt : DataType) (a : String) : Prop :=
  ∃ front c back, caps = front ++ (a, c) :: back ∧ dt ∈ c.supported_data_types ∧
    ∀ p ∈ front, dt ∉ p.2.supported_data_types

/-- The actor `a` is the first registered actor (registration order) whose
capability set contains the analysis type `an`. -/
def FirstSupportingAnalysis (caps : ActorRegistry) (an : AnalysisType) (a : String) : Prop :=
  ∃ front c back, caps = front ++ (a, c) :: back ∧ an ∈ c.supported_analyses ∧
    ∀ p ∈ front, an ∉ p.2.supported_analyses

theorem findBestActorForData_ok (caps : ActorRegistry) (dt : DataType) (a : String)
    (h : findBestActorForData caps dt = Except.ok a) : FirstSupportingData caps dt a := by
  induction caps with
  | nil => simp [findBestActorForData] at h
  | cons p rest ih =>
    obtain ⟨nm, c⟩ := p
    by_cases hc : dt ∈ c.supported_data_types
    · have hnm : nm = a := by
        simpa [findBestActorForData, hc] using h
      subst hnm
      exact ⟨[], c, rest, rfl, hc, by simp⟩
    · have h2 : findBestActorForData rest dt = Except.ok a := by
        simpa [findBestActorForData, hc] using h
      obtain ⟨front, c2, back, heq, hmem, hfront⟩ := ih h2
      refine ⟨(nm, c) :: front, c2, back, by simp [heq], hmem, ?_⟩
      intro q hq
      rcases List.mem_cons.mp hq with hq1 | hq1
      · subst hq1; exact hc
      · exact hfront q hq1

theorem findBestActorForAnalysis_ok (caps : ActorRegistry) (an : AnalysisType) (a : String)
    (h : findBestActorForAnalysis caps an = Except.ok a) : FirstSupportingAnalysis caps an a := by
  induction caps with
  | nil => simp [findBestActorForAnalysis] at h
  | cons p rest ih =>
    obtain ⟨nm, c⟩ := p
    by_cases hc : an ∈ c.supported_analyses
    · have hnm : nm = a := by
        simpa [findBestActorForAnalysis, hc] using h
      subst hnm
      exact ⟨[], c, rest, rfl, hc, by simp⟩
    · have h2 : findBestActorForAnalysis rest an = Except.ok a := by
        simpa [findBestActorForAnalysis, hc] using h
      obtain ⟨front, c2, back, heq, hmem, hfront⟩ := ih h2
      refine ⟨(nm, c) :: front, c2, back, by simp [heq], hmem, ?_⟩
      intro q hq
      rcases List.mem_cons.mp hq with hq1 | hq1
      · subst hq1; exact hc
      · exact hfront q hq1

theorem findBestActorForData_error (caps : ActorRegistry) (dt : DataType)
    (h : ∀ p ∈ caps, dt ∉ p.2.supported_data_types) :
    findBestActorForData caps dt = Except.error ("No actor found for data type: " ++ dt.name) := by
  induction caps with
  | nil => rfl
  | cons p rest ih =>
    obtain ⟨nm, c⟩ := p
    have hc : dt ∉ c.supported_data_types := h (nm, c) (List.mem_cons_self _ _)
    simp only [findBestActorForData, hc, if_neg, not_false_iff]
    exact ih (fun q hq => h q (List.mem_cons_of_mem _ hq))

theorem findBestActorForAnalysis_error (caps : ActorRegistry) (an : AnalysisType)
    (h : ∀ p ∈ caps, an ∉ p.2.supported_analyses) :
    findBestActorForAnalysis caps an =
      Except.error ("No actor found for analysis: " ++ an.name) := by
  induction caps with
  | nil => rfl
  | cons p rest ih =>
    obtain ⟨nm, c⟩ := p
    have hc : an ∉ c.supported_analyses := h (nm, c) (List.mem_cons_self _ _)
    simp only [findBestActorForAnalysis, hc, if_neg, not_false_iff]
    exact ih (fun q hq => h q (List.mem_cons_of_mem _ hq))

/-- Relation between a required data type and the step built for it. -/
def DataStepFor (caps : ActorRegistry) (dt : DataType) (s : ExecutionStep) : Prop :=
  findBestActorForData caps dt = Except.ok s.actor_name ∧ s = mkDataStep s.actor_name dt

theorem planDataSteps_ok (caps : ActorRegistry) (rd : List DataType)
    (ds : List ExecutionStep) (h : planDataSteps caps rd = Except.ok ds) :
    List.Forall₂ (DataStepFor caps) rd ds := by
  induction rd generalizing ds with
  | nil =>
    have hds : ds = [] := by
      simpa [planDataSteps] using h.symm
    subst hds
    exact List.Forall₂.nil
  | cons dt rest ih =>
    rw [planDataSteps] at h
    cases hf : findBestActorForData caps dt with
    | error e => rw [hf] at h; cases h
    | ok actor =>
      rw [hf] at h
      cases hm : planDataSteps caps rest with
      | error e => rw [hm] at h; cases h
      | ok more =>
        rw [hm] at h
        have hds : mkDataStep actor dt :: more = ds := by
          simpa using h
        subst hds
        exact List.Forall₂.cons ⟨hf, rfl⟩ (ih more hm)

theorem planDataSteps_error_of_unsupported (caps : ActorRegistry) (rd : List DataType)
    (dt : DataType) (hmem : dt ∈ rd) (hnone : ∀ p ∈ caps, dt ∉ p.2.supported_data_types) :
    ∃ e, planDataSteps caps rd = Except.error e := by
  induction rd with
  | nil => cases hmem
  | cons d rest ih =>
    rcases List.mem_cons.mp hmem with hd | hd
    · subst hd
      rw [planDataSteps, findBestActorForData_error caps dt hnone]
      exact ⟨_, rfl⟩
    · obtain ⟨e, he⟩ := ih hd
      rw [planDataSteps]
      cases hf : findBestActorForData caps d with
      | error e2 => exact ⟨e2, rfl⟩
      | ok actor => rw [he]; exact ⟨e, rfl⟩

theorem planAnalysisSteps_error_of_unsupported (caps : ActorRegistry)
    (handled : List DataType) (ra : List AnalysisType) (an : AnalysisType)
    (hmem : an ∈ ra) (hnone : ∀ p ∈ caps, an ∉ p.2.supported_analyses) :
    ∀ acc, ∃ e, planAnalysisSteps caps handled ra acc = Except.error e := by
  induction ra with
  | nil => cases hmem
  | cons a0 rest ih =>
    intro acc
    rcases List.mem_cons.mp hmem with hd | hd
    · subst hd
      rw [planAnalysisSteps, findBestActorForAnalysis_error caps an hnone]
      exact ⟨_, rfl⟩
    · rw [planAnalysisSteps]
      cases hf : findBestActorForAnalysis caps a0 with
      | error e2 => exact ⟨e2, rfl⟩
      | ok actor => exact ih hd _

theorem planAnalysisSteps_extends (caps : ActorRegistry) (handled : List DataType)
    (ra : List AnalysisType) :
    ∀ acc out, planAnalysisSteps caps handled ra acc = Except.ok out →
      ∃ t, out = acc ++ t := by
  induction ra with
  | nil =>
    intro acc out h
    have : acc = out := by simpa [planAnalysisSteps] using h
    exact ⟨[], by simp [this]⟩
  | cons a0 rest ih =>
    intro acc out h
    rw [planAnalysisSteps] at h
    cases hf : findBestActorForAnalysis caps a0 with
    | error e => rw [hf] at h; cases h
    | ok actor =>
      rw [hf] at h
      obtain ⟨t, ht⟩ := ih _ out h
      exact ⟨_, by simpa using ht⟩

/-- C4: the planner assigns each required data type to the first registered
actor (in registration order) whose capabilities contain it, and symmetrically
for analysis types; when some required data type (or analysis type) is
supported by no registered actor, step creation aborts with the no-actor
error, so no step list is produced at all. -/
theorem planner_assigns_first_capable_actor (caps : ActorRegistry)
    (rd : List DataType) (ra : List AnalysisType) :
    (∀ dt a, findBestActorForData caps dt = Except.ok a → FirstSupportingData caps dt a) ∧
    (∀ an a, findBestActorForAnalysis caps an = Except.ok a →
      FirstSupportingAnalysis caps an a) ∧
    (∀ steps, createExecutionSteps caps rd ra = Except.ok steps →
      List.Forall₂ (DataStepFor caps) rd (steps.take rd.length)) ∧
    (∀ dt, dt ∈ rd → (∀ p ∈ caps, dt ∉ p.2.supported_data_types) →
      ∃ e, createExecutionSteps caps rd ra = Except.error e) ∧
    (∀ an, an ∈ ra → (∀ p ∈ caps, an ∉ p.2.supported_analyses) →
      ∃ e, createExecutionSteps caps rd ra = Except.error e) := by
  refine ⟨findBestActorForData_ok caps, findBestActorForAnalysis_ok caps, ?_, ?_, ?_⟩
  · intro steps h
    rw [createExecutionSteps] at h
    cases hds : planDataSteps caps rd with
    | error e => rw [hds] at h; cases h
    | ok ds =>
      rw [hds] at h
      have hfa := planDataSteps_ok caps rd ds hds
      obtain ⟨t, ht⟩ := planAnalysisSteps_extends caps (handledData rd) ra ds steps h
      have hlen : rd.length = ds.length := hfa.length_eq
      have htake : steps.take rd.length = ds := by
        rw [ht, hlen, List.take_left]
      rw [htake]
      exact hfa
  · intro dt hmem hnone
    obtain ⟨e, he⟩ := planDataSteps_error_of_unsupported caps rd dt hmem hnone
    rw [createExecutionSteps, he]
    exact ⟨e, rfl⟩
  · intro an hmem hnone
    rw [createExecutionSteps]
    cases hds : planDataSteps caps rd with
    | error e => exact ⟨e, rfl⟩
    | ok ds => exact planAnalysisSteps_error_of_unsupported caps _ ra an hmem hnone ds

/-- Two registered actors used by the planner witnesses: a customer-data actor
registered first and an organization actor (which also performs the analyses)
registered second. -/
def capsDemo : ActorRegistry :=
  [("customer_actor",
    { supported_data_types := [DataType.CUSTOMER], supported_analyses := [] }),
   ("org_actor",
    { supported_data_types := [DataType.ORGANIZATION],
      supported_analyses := [AnalysisType.GEOGRAPHIC, AnalysisType.STATISTICAL] })]

/-- Witness for C4: the ORGANIZATION data type is assigned to the first
(and here only) supporting actor, and a plan over the unsupported SALES data
type aborts with an error. -/
theorem planner_assigns_first_capable_actor_witness :
    (findBestActorForData capsDemo DataType.ORGANIZATION = Except.ok "org_actor") ∧
    FirstSupportingData capsDemo DataType.ORGANIZATION "org_actor" ∧
    (DataType.SALES ∈ [DataType.SALES] ∧
      (∀ p ∈ capsDemo, DataType.SALES ∉ p.2.supported_data_types)) ∧
    (∃ e, createExecutionSteps capsDemo [DataType.SALES] [] = Except.error e) :=
  ⟨rfl,
    (planner_assigns_first_capable_actor capsDemo [] []).1 DataType.ORGANIZATION "org_actor"
      rfl,
    ⟨by decide, by decide⟩,
    (planner_assigns_first_capable_actor capsDemo [DataType.SALES] []).2.2.2.1 DataType.SALES
      (by decide) (by decide)⟩

theorem setAdd_ne_nil (acc : List DataType) (d : DataType) : setAdd acc d ≠ [] := by
  unfold setAdd
  split
  · intro hacc
    subst hacc
    simp_all
  · simp

theorem foldl_setAdd_ne_nil (l : List DataType) :
    ∀ acc, acc ≠ [] → l.foldl setAdd acc ≠ [] := by
  induction l with
  | nil => intro acc h; simpa using h
  | cons d rest ih => intro acc _; exact ih (setAdd acc d) (setAdd_ne_nil acc d)

theorem handledData_ne_nil (rd : List DataType) (h : rd ≠ []) : handledData rd ≠ [] := by
  cases rd with
  | nil => exact absurd rfl h
  | cons d rest =>
    show (List.foldl setAdd [] (d :: rest)) ≠ []
    rw [List.foldl_cons]
    exact foldl_setAdd_ne_nil rest (setAdd [] d) (setAdd_ne_nil [] d)

theorem mem_setAdd_of_mem (acc : List DataType) (d x : DataType) (h : x ∈ acc) :
    x ∈ setAdd acc d := by
  unfold setAdd
  split
  · exact h
  · exact List.mem_append_left _ h

theorem mem_setAdd_self (acc : List DataType) (d : DataType) : d ∈ setAdd acc d := by
  unfold setAdd
  split
  · assumption
  · simp

theorem mem_foldl_setAdd (l : List DataType) :
    ∀ acc x, x ∈ acc ∨ x ∈ l → x ∈ l.foldl setAdd acc := by
  induction l with
  | nil =>
    intro acc x h
    rcases h with h | h
    · simpa using h
    · cases h
  | cons d rest ih =>
    intro acc x h
    rw [List.foldl_cons]
    rcases h with h | h
    · exact ih _ x (Or.inl (mem_setAdd_of_mem acc d x h))
    · rcases List.mem_cons.mp h with h | h
      · subst h
        exact ih _ x (Or.inl (mem_setAdd_self acc x))
      · exact ih _ x (Or.inr h)

theorem mem_handledData (rd : List DataType) (dt : DataType) (h : dt ∈ rd) :
    dt ∈ handledData rd :=
  mem_foldl_setAdd rd [] dt (Or.inr h)

theorem forall₂_mem_right {α β : Type} {R : α → β → Prop} {l₁ : List α} {l₂ : List β}
    (h : List.Forall₂ R l₁ l₂) : ∀ b ∈ l₂, ∃ a ∈ l₁, R a b := by
  induction h with
  | nil => intro b hb; cases hb
  | cons hr _ ih =>
    intro b hb
    rcases List.mem_cons.mp hb with hb | hb
    · subst hb
      exact ⟨_, List.mem_cons_self _ _, hr⟩
    · obtain ⟨a, ha, har⟩ := ih b hb
      exact ⟨a, List.mem_cons_of_mem _ ha, har⟩

theorem condOK_mkAnalysisStep (handled : List DataType) (hne : handled ≠ [])
    (actor : String) (an : AnalysisType) (deps : List String) :
    condOK handled (mkAnalysisStep actor an handled deps) = true := by
  obtain ⟨d, rest, rfl⟩ := List.exists_cons_of_ne_nil hne
  simp [condOK, mkAnalysisStep]

theorem condOK_dataStep (rd : List DataType) (caps : ActorRegistry) (s : ExecutionStep)
    (dt : DataType) (hmem : dt ∈ rd) (hs : DataStepFor caps dt s) :
    condOK (handledData rd) s = true := by
  rw [hs.2]
  simp only [condOK, mkDataStep, List.any_eq_true]
  exact ⟨dt, mem_handledData rd dt hmem, by simp⟩

theorem analysisDeps_all_kept (handled : List DataType) (steps : List ExecutionStep)
    (h : ∀ s ∈ steps, condOK handled s = true) :
    analysisDeps handled steps = steps.map (fun s => s.actor_name) := by
  unfold analysisDeps
  rw [List.filter_eq_self.mpr h]

theorem condOK_nil_handled (s : ExecutionStep) : condOK [] s = false := by
  simp [condOK]

theorem analysisDeps_nil_handled (steps : List ExecutionStep) :
    analysisDeps [] steps = [] := by
  unfold analysisDeps
  rw [List.filter_eq_nil_iff.mpr (fun s _ => by simp [condOK_nil_handled])]
  rfl

theorem planAnalysisSteps_ok_strong (caps : ActorRegistry) (handled : List DataType)
    (hne : handled ≠ []) (ra : List AnalysisType) :
    ∀ acc out, planAnalysisSteps caps handled ra acc = Except.ok out →
      (∀ s ∈ acc, condOK handled s = true) →
      out.length = acc.length + ra.length ∧
      (∀ s ∈ out, condOK handled s = true) ∧
      (∀ i, (hi : i < out.length) → acc.length ≤ i →
        out[i].depends_on = (out.take i).map (fun s => s.actor_name)) := by
  induction ra with
  | nil =>
    intro acc out h hacc
    have hao : acc = out := by simpa [planAnalysisSteps] using h
    subst hao
    exact ⟨by simp, hacc, fun i hi hle => absurd hi (by omega)⟩
  | cons a0 rest ih =>
    intro acc out h hacc
    rw [planAnalysisSteps] at h
    cases hf : findBestActorForAnalysis caps a0 with
    | error e => rw [hf] at h; cases h
    | ok actor =>
      rw [hf] at h
      have hacc2 : ∀ s ∈ acc ++ [mkAnalysisStep actor a0 handled (analysisDeps handled acc)],
          condOK handled s = true := by
        intro s hs
        rcases List.mem_append.mp hs with hs | hs
        · exact hacc s hs
        · have hseq : s = mkAnalysisStep actor a0 handled (analysisDeps handled acc) := by
            simpa using hs
          subst hseq
          exact condOK_mkAnalysisStep handled hne actor a0 _
      obtain ⟨hlen, hall, hidx⟩ := ih _ out h hacc2
      have hlen2 : out.length = acc.length + (rest.length + 1) := by
        simp at hlen
        omega
      refine ⟨by simpa using hlen2, hall, ?_⟩
      intro i hi hle
      rcases Nat.lt_or_ge i (acc.length + 1) with hlt | hge
      · have hieq : i = acc.length := by omega
        subst hieq
        obtain ⟨t, ht⟩ := planAnalysisSteps_extends caps handled rest _ out h
        have hout : out = acc ++ (mkAnalysisStep actor a0 handled (analysisDeps handled acc) :: t) := by
          rw [ht]
          simp
        have hget : out[acc.length] =
            mkAnalysisStep actor a0 handled (analysisDeps handled acc) := by
          subst hout
          rw [List.getElem_append_right (by omega)]
          simp
        have htake : out.take acc.length = acc := by
          subst hout
          exact List.take_left acc _
        rw [hget, htake]
        exact analysisDeps_all_kept handled acc hacc
      · exact hidx i hi (by simpa using hge)

theorem planAnalysisSteps_ok_nil_handled (caps : ActorRegistry) (ra : List AnalysisType) :
    ∀ acc out, planAnalysisSteps caps [] ra acc = Except.ok out →
      out.length = acc.length + ra.length ∧
      (∀ i, (hi : i < out.length) → acc.length ≤ i → out[i].depends_on = []) := by
  induction ra with
  | nil =>
    intro acc out h
    have hao : acc = out := by simpa [planAnalysisSteps] using h
    subst hao
    exact ⟨by simp, fun i hi hle => absurd hi (by omega)⟩
  | cons a0 rest ih =>
    intro acc out h
    rw [planAnalysisSteps] at h
    cases hf : findBestActorForAnalysis caps a0 with
    | error e => rw [hf] at h; cases h
    | ok actor =>
      rw [hf] at h
      obtain ⟨hlen, hidx⟩ := ih _ out h
      have hlen2 : out.length = acc.length + (rest.length + 1) := by
        simp at hlen
        omega
      refine ⟨by simpa using hlen2, ?_⟩
      intro i hi hle
      rcases Nat.lt_or_ge i (acc.length + 1) with hlt | hge
      · have hieq : i = acc.length := by omega
        subst hieq
        obtain ⟨t, ht⟩ := planAnalysisSteps_extends caps [] rest _ out h
        have hout : out = acc ++ (mkAnalysisStep actor a0 [] (analysisDeps [] acc) :: t) := by
          rw [ht]
          simp
        have hget : out[acc.length] = mkAnalysisStep actor a0 [] (analysisDeps [] acc) := by
          subst hout
          rw [List.getElem_append_right (by omega)]
          simp
        rw [hget]
        show analysisDeps [] acc = []
        exact analysisDeps_nil_handled acc
      · exact hidx i hi (by simpa using hge)

/-- The execution steps produced by `capsDemo` for required data `[CUSTOMER]`
and required analyses `[GEOGRAPHIC, STATISTICAL]`. -/
def stepsDemo : List ExecutionStep :=
  [mkDataStep "customer_actor" DataType.CUSTOMER,
   mkAnalysisStep "org_actor" AnalysisType.GEOGRAPHIC [DataType.CUSTOMER] ["customer_actor"],
   mkAnalysisStep "org_actor" AnalysisType.STATISTICAL [DataType.CUSTOMER]
     ["customer_actor", "org_actor"]]

/-- C5 counterexample: with one data step (actor `customer_actor`) and two
analysis steps, the second analysis step's `depends_on` is
`["customer_actor", "org_actor"]` — it includes the actor of the first
analysis step, not only the data-producing actors `["customer_actor"]` the
claim demands, because the earlier analysis step's `required_data` is the
full handled set and therefore passes the dependency filter too. -/
theorem second_analysis_step_depends_on_prior_analysis_actor :
    (createExecutionSteps capsDemo [DataType.CUSTOMER]
        [AnalysisType.GEOGRAPHIC, AnalysisType.STATISTICAL]).map
      (fun steps => steps.map (fun s => s.depends_on)) =
      Except.ok [[], ["customer_actor"], ["customer_actor", "org_actor"]] ∧
    (["customer_actor", "org_actor"] : List String) ≠ ["customer_actor"] := by
  exact ⟨rfl, by decide⟩

/-- C5 (amended): in every successfully created step list, each analysis step
(the steps at positions `rd.length` onward) has `depends_on` equal to the
actor names of all previously scheduled steps — the data steps and every
earlier analysis step — whenever at least one data type was required; when no
data type was required, every analysis step's `depends_on` is empty. -/
theorem analysis_steps_depend_on_all_prior_steps (caps : ActorRegistry)
    (rd : List DataType) (ra : List AnalysisType) (steps : List ExecutionStep)
    (h : createExecutionSteps caps rd ra = Except.ok steps) :
    steps.length = rd.length + ra.length ∧
    ∀ i, (hi : i < steps.length) → rd.length ≤ i →
      steps[i].depends_on =
        (if rd.isEmpty then [] else (steps.take i).map (fun s => s.actor_name)) := by
  rw [createExecutionSteps] at h
  cases hds : planDataSteps caps rd with
  | error e => rw [hds] at h; cases h
  | ok ds =>
    rw [hds] at h
    have hfa := planDataSteps_ok caps rd ds hds
    have hlen : rd.length = ds.length := hfa.length_eq
    by_cases hrd : rd = []
    · subst hrd
      have hdsnil : ds = [] := by
        cases hfa
        rfl
      subst hdsnil
      obtain ⟨hl, hdeps⟩ := planAnalysisSteps_ok_nil_handled caps ra [] steps h
      refine ⟨by simpa using hl, ?_⟩
      intro i hi hle
      simpa using hdeps i hi (by simp)
    · have hie : rd.isEmpty = false := by
        cases rd with
        | nil => exact absurd rfl hrd
        | cons d rest => rfl
      have hne : handledData rd ≠ [] := handledData_ne_nil rd hrd
      have hcond : ∀ s ∈ ds, condOK (handledData rd) s = true := by
        intro s hs
        obtain ⟨dt, hdt, hrel⟩ := forall₂_mem_right hfa s hs
        exact condOK_dataStep rd caps s dt hdt hrel
      obtain ⟨hl, _, hdeps⟩ := planAnalysisSteps_ok_strong caps (handledData rd) hne ra
        ds steps h hcond
      refine ⟨by omega, ?_⟩
      intro i hi hle
      rw [hdeps i hi (by omega)]
      simp [hie]

/-- Witness for the amended C5 theorem on the concrete plan produced by
`capsDemo` with one required data type and two required analyses. -/
theorem analysis_steps_depend_on_all_prior_steps_witness :
    createExecutionSteps capsDemo [DataType.CUSTOMER]
        [AnalysisType.GEOGRAPHIC, AnalysisType.STATISTICAL] = Except.ok stepsDemo ∧
    (stepsDemo.length =
        ([DataType.CUSTOMER] : List DataType).length +
          ([AnalysisType.GEOGRAPHIC, AnalysisType.STATISTICAL] : List AnalysisType).length ∧
      ∀ i, (hi : i < stepsDemo.length) →
        ([DataType.CUSTOMER] : List DataType).length ≤ i →
        stepsDemo[i].depends_on =
          (if ([DataType.CUSTOMER] : List DataType).isEmpty then []
            else (stepsDemo.take i).map (fun s => s.actor_name))) :=
  ⟨rfl,
    analysis_steps_depend_on_all_prior_steps capsDemo [DataType.CUSTOMER]
      [AnalysisType.GEOGRAPHIC, AnalysisType.STATISTICAL] stepsDemo rfl⟩

/-- Every name in a step's `depends_on` is the actor name of a strictly
earlier step in the list. -/
def EarlierDeps (l : List ExecutionStep) : Prop :=
  ∀ i, (hi : i < l.length) → ∀ nm ∈ l[i].depends_on,
    ∃ j, ∃ hj : j < l.length, j < i ∧ l[j].actor_name = nm

theorem earlierDeps_append_one (acc : List ExecutionStep) (new : ExecutionStep)
    (h : EarlierDeps acc)
    (hdeps : ∀ nm ∈ new.depends_on, ∃ s ∈ acc, s.actor_name = nm) :
    EarlierDeps (acc ++ [new]) := by
  intro i hi nm hnm
  have hlen : (acc ++ [new]).length = acc.length + 1 := by simp
  rcases Nat.lt_or_ge i acc.length with hlt | hge
  · rw [List.getElem_append_left hlt] at hnm
    obtain ⟨j, hj, hji, hname⟩ := h i hlt nm hnm
    refine ⟨j, by simp; omega, hji, ?_⟩
    rw [List.getElem_append_left hj]
    exact hname
  · have hieq : i = acc.length := by omega
    subst hieq
    rw [List.getElem_append_right (by omega)] at hnm
    simp at hnm
    obtain ⟨s, hs, hname⟩ := hdeps nm hnm
    obtain ⟨j, hj, hsj⟩ := List.getElem_of_mem hs
    refine ⟨j, by simp; omega, hj, ?_⟩
    rw [List.getElem_append_left hj, hsj]
    exact hname

theorem analysisDeps_from_steps (handled : List DataType) (steps : List ExecutionStep) :
    ∀ nm ∈ analysisDeps handled steps, ∃ s ∈ steps, s.actor_name = nm := by
  intro nm hnm
  obtain ⟨s, hs, hname⟩ := List.mem_map.mp hnm
  exact ⟨s, List.mem_of_mem_filter hs, hname⟩

theorem planAnalysisSteps_earlierDeps (caps : ActorRegistry) (handled : List DataType)
    (ra : List AnalysisType) :
    ∀ acc out, planAnalysisSteps caps handled ra acc = Except.ok out →
      EarlierDeps acc → EarlierDeps out := by
  induction ra with
  | nil =>
    intro acc out h hacc
    have hao : acc = out := by simpa [planAnalysisSteps] using h
    subst hao
    exact hacc
  | cons a0 rest ih =>
    intro acc out h hacc
    rw [planAnalysisSteps] at h
    cases hf : findBestActorForAnalysis caps a0 with
    | error e => rw [hf] at h; cases h
    | ok actor =>
      rw [hf] at h
      refine ih _ out h (earlierDeps_append_one acc _ hacc ?_)
      exact analysisDeps_from_steps handled acc

theorem dataSteps_earlierDeps (caps : ActorRegistry) (rd : List DataType)
    (ds : List ExecutionStep) (hfa : List.Forall₂ (DataStepFor caps) rd ds) :
    EarlierDeps ds := by
  intro i hi nm hnm
  have hmem : ds[i] ∈ ds := List.getElem_mem hi
  obtain ⟨dt, _, hrel⟩ := forall₂_mem_right hfa _ hmem
  rw [hrel.2] at hnm
  cases hnm

/-- C6: in every step list the planner produces, each step's `depends_on`
contains only actor names of steps appearing strictly earlier in the list —
data steps carry no dependencies, and an analysis step's dependency list is
drawn from the steps accumulated before it. -/
theorem depends_on_references_only_earlier_steps (caps : ActorRegistry)
    (rd : List DataType) (ra : List AnalysisType) (steps : List ExecutionStep)
    (h : createExecutionSteps caps rd ra = Except.ok steps) :
    ∀ i, (hi : i < steps.length) → ∀ nm ∈ steps[i].depends_on,
      ∃ j, ∃ hj : j < steps.length, j < i ∧ steps[j].actor_name = nm := by
  rw [createExecutionSteps] at h
  cases hds : planDataSteps caps rd with
  | error e => rw [hds] at h; cases h
  | ok ds =>
    rw [hds] at h
    have hfa := planDataSteps_ok caps rd ds hds
    exact planAnalysisSteps_earlierDeps caps (handledData rd) ra ds steps h
      (dataSteps_earlierDeps caps rd ds hfa)

/-- Witness for C6 on the concrete three-step plan produced by `capsDemo`. -/
theorem depends_on_references_only_earlier_steps_witness :
    createExecutionSteps capsDemo [DataType.CUSTOMER]
        [AnalysisType.GEOGRAPHIC, AnalysisType.STATISTICAL] = Except.ok stepsDemo ∧
    (∀ i, (hi : i < stepsDemo.length) → ∀ nm ∈ stepsDemo[i].depends_on,
      ∃ j, ∃ hj : j < stepsDemo.length, j < i ∧ stepsDemo[j].actor_name = nm) :=
  ⟨rfl,
    depends_on_references_only_earlier_steps capsDemo [DataType.CUSTOMER]
      [AnalysisType.GEOGRAPHIC, AnalysisType.STATISTICAL] stepsDemo rfl⟩

/-! ## Graph-router supervisor (`tests/multi-actor-orchestration.py`,
`Orchestrator._supervisor_node`)

`get_next_actor` lowercases the latest message, checks the completion phrases,
then runs two keyword checks with a fall-through (each inner `return` fires
only when the previous actor differs from that specialist), and finally
alternates between the two specialists. -/

/-- Python substring containment `tok in s`, over character lists. -/
def containsTok (tok : List Char) : List Char → Bool
  | [] => tok.isEmpty
  | c :: rest => tok.isPrefixOf (c :: rest) || containsTok tok rest

/-- Python `phrase in msg` for strings. -/
def containsSub (msg phrase : String) : Bool := containsTok phrase.toList msg.toList

def completionPhrases : List String :=
  ["analysis complete", "task finished", "final recommendation", "conclusion reached"]

/-- The final alternation of the supervisor: previous actor
`customer_specialist` routes to the organization specialist, anything else
(including no previous actor) routes to the customer specialist. -/
def routeFallback (lastActor : Option String) : String :=
  if lastActor == some "customer_specialist" then "organization_specialist"
  else "customer_specialist"

/-- The customer/individual keyword check with its fall-through to the
alternation. -/
def routeCustomerCheck (msg : String) (lastActor : Option String) : String :=
  if containsSub msg "customer" || containsSub msg "individual" then
    if lastActor != some "customer_specialist" then "customer_specialist"
    else routeFallback lastActor
  else routeFallback lastActor

/-- The organization/company keyword check with its fall-through to the
customer check. -/
def routeOrgCheck (msg : String) (lastActor : Option String) : String :=
  if containsSub msg "organization" || containsSub msg "company" then
    if lastActor != some "organization_specialist" then "organization_specialist"
    else routeCustomerCheck msg lastActor
  else routeCustomerCheck msg lastActor

/-- Model of `get_next_actor`: the supervisor decision as a function of the
latest message content and the name of the actor that produced it (`None` for
the initial human message). -/
def getNextActor (rawMessage : String) (lastActor : Option String) : String :=
  if completionPhrases.any (fun p => containsSub rawMessage.toLower p) then "FINISH"
  else routeOrgCheck rawMessage.toLower lastActor

/-- The four routing rules exactly as the claim states them, applied in
order to the lowercased message (this definition follows the claim text, to
be compared with `getNextActor`, which follows the source). -/
def supervisorRules (rawMessage : String) (lastActor : Option String) : String :=
  if completionPhrases.any (fun p => containsSub rawMessage.toLower p) then "FINISH"
  else if (containsSub rawMessage.toLower "organization" ||
      containsSub rawMessage.toLower "company") &&
      (lastActor != some "organization_specialist") then "organization_specialist"
  else if (containsSub rawMessage.toLower "customer" ||
      containsSub rawMessage.toLower "individual") &&
      (lastActor != some "customer_specialist") then "customer_specialist"
  else if lastActor == some "customer_specialist" then "organization_specialist"
  else "customer_specialist"

/-- C8: the supervisor decision of the source equals the rule cascade stated
by the claim — completion phrases first, then the organization keyword rule,
then the customer keyword rule, then alternation — and `FINISH` is returned
exactly when a completion phrase occurs in the lowercased message. -/
theorem supervisor_routing_rules (rawMessage : String) (lastActor : Option String) :
    getNextActor rawMessage lastActor = supervisorRules rawMessage lastActor ∧
    (getNextActor rawMessage lastActor = "FINISH" ↔
      completionPhrases.any (fun p => containsSub rawMessage.toLower p) = true) := by
  unfold getNextActor supervisorRules routeOrgCheck routeCustomerCheck routeFallback
  cases h1 : completionPhrases.any (fun p => containsSub rawMessage.toLower p) <;>
  cases h2 : containsSub rawMessage.toLower "organization" ||
    containsSub rawMessage.toLower "company" <;>
  cases h3 : lastActor == some "organization_specialist" <;>
  cases h4 : containsSub rawMessage.toLower "customer" ||
    containsSub rawMessage.toLower "individual" <;>
  cases h5 : lastActor == some "customer_specialist" <;>
    simp [bne, h1, h2, h3, h4, h5]

/-! ## Planner response cleaning (`QueryPlanner._clean_json_response`)

The source checks `'```' in response` and, if present, replaces the response
with the first group of `re.search(r"```(?:json)?(.*?)```", response,
re.DOTALL)` when the search matches; it always strips surrounding whitespace
at the end.  The regex search is modelled directly: scan positions left to
right; at a position starting with the fence, optionally consume a `json` tag,
then take the (lazy, hence shortest) text up to the next fence.  When the
`json` tag is present, consuming it fails exactly when not consuming it fails
(the four tag characters contain no backtick), so the greedy optional group
needs no further backtracking. -/

def fenceTok : List Char := "```".toList

def jsonTok : List Char := "json".toList

/-- The backtick character, recovered from the fence token. -/
def btick : Char := fenceTok.headD 'A'

/-- The lazy `(.*?)` group: the characters before the first occurrence of the
closing fence, or `none` when no closing fence follows. -/
def takeUntilFence : List Char → Option (List Char)
  | [] => none
  | c :: rest =>
    if fenceTok.isPrefixOf (c :: rest) then some []
    else (takeUntilFence rest).map (fun g => c :: g)

/-- The regex tail after an opening fence: optionally consume the `json` tag,
then take the group up to the closing fence. -/
def matchAfterFence (s : List Char) : Option (List Char) :=
  if jsonTok.isPrefixOf s then takeUntilFence (s.drop 4) else takeUntilFence s

/-- `re.search` for the fence pattern: try each start position left to right. -/
def fenceSearch : List Char → Option (List Char)
  | [] => none
  | c :: rest =>
    if fenceTok.isPrefixOf (c :: rest) then
      match matchAfterFence (rest.drop 2) with
      | some g => some g
      | none => fenceSearch rest
    else fenceSearch rest

/-- Model of `QueryPlanner._clean_json_response`. -/
def cleanJsonResponse (response : String) : String :=
  if containsTok fenceTok response.toList then
    match fenceSearch response.toList with
    | some g => (String.mk g).trim
    | none => response.trim
  else response.trim

theorem isPrefixOf_self_append {α : Type} [BEq α] [LawfulBEq α] (l x : List α) :
    l.isPrefixOf (l ++ x) = true := by
  induction l with
  | nil => simp
  | cons a as ih =>
    show ((a == a) && as.isPrefixOf (as ++ x)) = true
    rw [ih]
    simp

theorem isPrefixOf_append_of_length_le {α : Type} [BEq α] (l : List α) :
    ∀ p x : List α, l.length ≤ p.length → l.isPrefixOf (p ++ x) = l.isPrefixOf p := by
  induction l with
  | nil => intro p x _; simp
  | cons a as ih =>
    intro p x h
    cases p with
    | nil => simp at h
    | cons b bs =>
      show ((a == b) && as.isPrefixOf (bs ++ x)) = ((a == b) && as.isPrefixOf bs)
      rw [ih bs x (by simpa using h)]

theorem fence_isPrefixOf_false (c : Char) (rest : List Char) (hc : c ≠ btick) :
    fenceTok.isPrefixOf (c :: rest) = false := by
  have hbc : (btick == c) = false := beq_eq_false_iff_ne.mpr (fun h => hc h.symm)
  show ((btick == c) && (btick :: btick :: []).isPrefixOf rest) = false
  rw [hbc]
  simp

theorem containsTok_fence_false (l : List Char) (hb : ∀ c ∈ l, c ≠ btick) :
    containsTok fenceTok l = false := by
  induction l with
  | nil => rfl
  | cons c rest ih =>
    show (fenceTok.isPrefixOf (c :: rest) || containsTok fenceTok rest) = false
    rw [fence_isPrefixOf_false c rest (hb c (List.mem_cons_self c rest)),
      ih (fun x hx => hb x (List.mem_cons_of_mem c hx))]
    rfl

theorem containsTok_fence_self_append (X : List Char) :
    containsTok fenceTok (fenceTok ++ X) = true := by
  show (fenceTok.isPrefixOf (fenceTok ++ X) ||
    containsTok fenceTok (btick :: btick :: X)) = true
  rw [isPrefixOf_self_append]
  rfl

theorem takeUntilFence_append_fence (P : List Char) (hb : ∀ c ∈ P, c ≠ btick) :
    takeUntilFence (P ++ fenceTok) = some P := by
  induction P with
  | nil => rfl
  | cons c rest ih =>
    have hpre := fence_isPrefixOf_false c (rest ++ fenceTok) (hb c (List.mem_cons_self c rest))
    show (if fenceTok.isPrefixOf (c :: (rest ++ fenceTok)) then some []
      else (takeUntilFence (rest ++ fenceTok)).map (fun g => c :: g)) = some (c :: rest)
    rw [hpre, ih (fun x hx => hb x (List.mem_cons_of_mem c hx))]
    rfl

theorem matchAfterFence_json (P : List Char) (hb : ∀ c ∈ P, c ≠ btick) :
    matchAfterFence (jsonTok ++ (P ++ fenceTok)) = some P := by
  unfold matchAfterFence
  rw [isPrefixOf_self_append jsonTok (P ++ fenceTok)]
  show takeUntilFence (P ++ fenceTok) = some P
  exact takeUntilFence_append_fence P hb

theorem matchAfterFence_plain (P : List Char) (hb : ∀ c ∈ P, c ≠ btick)
    (hlen : 4 ≤ P.length) (hj : jsonTok.isPrefixOf P = false) :
    matchAfterFence (P ++ fenceTok) = some P := by
  unfold matchAfterFence
  rw [isPrefixOf_append_of_length_le jsonTok P fenceTok (by simpa [jsonTok] using hlen), hj]
  show takeUntilFence (P ++ fenceTok) = some P
  exact takeUntilFence_append_fence P hb

theorem fenceSearch_at_front (X g : List Char) (h : matchAfterFence X = some g) :
    fenceSearch (fenceTok ++ X) = some g := by
  have hpre : fenceTok.isPrefixOf (fenceTok ++ X) = true := isPrefixOf_self_append fenceTok X
  show (if fenceTok.isPrefixOf (btick :: (btick :: btick :: X)) then
      match matchAfterFence ((btick :: btick :: X).drop 2) with
      | some g => some g
      | none => fenceSearch (btick :: btick :: X)
    else fenceSearch (btick :: btick :: X)) = some g
  rw [show ((btick :: btick :: X).drop 2) = X from rfl]
  rw [show fenceTok.isPrefixOf (btick :: (btick :: btick :: X)) = true from hpre, h]
  rfl

/-- C9: cleaning a response that wraps a backtick-free payload `P` in a
triple-backtick fence — with or without the `json` language tag — yields the
same string as cleaning the unfenced `P` (namely `P` stripped of surrounding
whitespace), so the subsequent JSON parsing and validation see identical
input and produce identical plans. -/
theorem fenced_json_cleans_to_unfenced (P : String)
    (hb : ∀ c ∈ P.toList, c ≠ btick)
    (hlen : 4 ≤ P.toList.length)
    (hj : jsonTok.isPrefixOf P.toList = false) :
    cleanJsonResponse ("```json" ++ P ++ "```") = cleanJsonResponse P ∧
    cleanJsonResponse ("```" ++ P ++ "```") = cleanJsonResponse P ∧
    cleanJsonResponse P = P.trim := by
  have hPclean : cleanJsonResponse P = P.trim := by
    unfold cleanJsonResponse
    rw [containsTok_fence_false P.toList hb]
    rfl
  have htl1 : ("```json" ++ P ++ "```").toList =
      fenceTok ++ (jsonTok ++ (P.toList ++ fenceTok)) := by
    show ("```json" ++ P ++ "```").data = fenceTok ++ (jsonTok ++ (P.data ++ fenceTok))
    rw [String.data_append, String.data_append,
      show ("```json" : String).data = fenceTok ++ jsonTok from rfl,
      show ("```" : String).data = fenceTok from rfl]
    simp [List.append_assoc]
  have htl2 : ("```" ++ P ++ "```").toList = fenceTok ++ (P.toList ++ fenceTok) := by
    show ("```" ++ P ++ "```").data = fenceTok ++ (P.data ++ fenceTok)
    rw [String.data_append, String.data_append,
      show ("```" : String).data = fenceTok from rfl]
    simp [List.append_assoc]
  have h1 : cleanJsonResponse ("```json" ++ P ++ "```") = P.trim := by
    unfold cleanJsonResponse
    rw [htl1, containsTok_fence_self_append,
      fenceSearch_at_front _ _ (matchAfterFence_json P.toList hb)]
    rfl
  have h2 : cleanJsonResponse ("```" ++ P ++ "```") = P.trim := by
    unfold cleanJsonResponse
    rw [htl2, containsTok_fence_self_append,
      fenceSearch_at_front _ _ (matchAfterFence_plain P.toList hb hlen hj)]
    rfl
  exact ⟨by rw [h1, hPclean], by rw [h2, hPclean], hPclean⟩

/-- Witness for C9 on a concrete backtick-free payload. -/
theorem fenced_json_cleans_to_unfenced_witness :
    (∀ c ∈ ("required_data_types: [CUSTOMER]" : String).toList, c ≠ btick) ∧
    (4 ≤ ("required_data_types: [CUSTOMER]" : String).toList.length) ∧
    (jsonTok.isPrefixOf ("required_data_types: [CUSTOMER]" : String).toList = false) ∧
    (cleanJsonResponse ("```json" ++ "required_data_types: [CUSTOMER]" ++ "```") =
        cleanJsonResponse "required_data_types: [CUSTOMER]" ∧
      cleanJsonResponse ("```" ++ "required_data_types: [CUSTOMER]" ++ "```") =
        cleanJsonResponse "required_data_types: [CUSTOMER]" ∧
      cleanJsonResponse "required_data_types: [CUSTOMER]" =
        ("required_data_types: [CUSTOMER]" : String).trim) :=
  ⟨by decide, by decide, by decide,
    fenced_json_cleans_to_unfenced "required_data_types: [CUSTOMER]"
      (by decide) (by decide) (by decide)⟩

end Orch
